import Mathlib

/-!
Verification of the dependency-graph builder of `main.py`.

The program builds the transitive dependency graph of a package by a
breadth-first traversal (`build_dependency_graph`): a queue of
`(package, depth)` pairs, a visited set, and a result mapping recorded as
a Python dict (insertion-ordered).  A dependency source answers the
per-package lookup: in test mode a static fixture mapping with
`repository.get(pkg, [])`; in live mode an HTTP+XML path whose pure core
is the parsing of the delimited dependency string.

The embedding below mirrors the Python loop step by step.  The loop has
no structural recursion, so it is modelled as a step function on an
explicit state plus a fuel-indexed iterator `run`; termination is then a
theorem (enough fuel always exists) rather than an assumption.  The
`trace` field records the sequence of packages for which the dependency
source was queried, so that lookup-count properties are statable.
-/

/-- State of the BFS loop of `build_dependency_graph`: the accumulated
graph (insertion-ordered, as a Python dict), the visited set, the
frontier queue of `(package, depth)` pairs, and the trace of packages
passed to the dependency lookup, in call order. -/
structure BuildState where
  graph : List (String × List String)
  visited : List String
  queue : List (String × Nat)
  trace : List String
deriving DecidableEq

/-- Test-mode dependency source: `repository.get(current_package, [])` —
look the package up in the fixture association list, a missing key
yields the empty list. -/
def fixtureLookup (repository : List (String × List String)) (pkg : String) : List String :=
  match repository.find? (fun e => e.1 == pkg) with
  | some e => e.2
  | none => []

/-- One iteration of the `while queue:` loop of `build_dependency_graph`,
for a total lookup function: pop the front entry; skip it if visited;
mark it visited; if `depth >= max_depth` do not expand; otherwise query
the lookup, record the dependency list in the graph, and enqueue each
dependency not yet visited at `depth + 1`. -/
def step (lookup : String → List String) (maxDepth : Int) (s : BuildState) : BuildState :=
  match s.queue with
  | [] => s
  | (pkg, depth) :: rest =>
    if pkg ∈ s.visited then
      { s with queue := rest }
    else
      let visited' := s.visited ++ [pkg]
      if (depth : Int) ≥ maxDepth then
        { graph := s.graph, visited := visited', queue := rest, trace := s.trace }
      else
        let dependencies := lookup pkg
        { graph := s.graph ++ [(pkg, dependencies)],
          visited := visited',
          queue := rest ++ (dependencies.filter (fun d => !(visited'.contains d))).map (fun d => (d, depth + 1)),
          trace := s.trace ++ [pkg] }

/-- Fuel-indexed iteration of `step`: `none` means the fuel ran out
before the queue emptied; `some t` is the final state of a completed
traversal. -/
def run (lookup : String → List String) (maxDepth : Int) : Nat → BuildState → Option BuildState
  | 0, s => if s.queue.isEmpty then some s else none
  | fuel + 1, s => if s.queue.isEmpty then some s else run lookup maxDepth fuel (step lookup maxDepth s)

/-- Initial loop state: empty graph, empty visited set, queue holding
`(start_package, 0)`, empty call trace. -/
def initState (start_package : String) : BuildState :=
  { graph := [], visited := [], queue := [(start_package, 0)], trace := [] }

/-- `build_dependency_graph` in test mode (`is_test_mode=True`): the BFS
loop over the fixture lookup, started from `(start_package, 0)`. -/
def build_dependency_graph (start_package : String) (repository : List (String × List String)) (max_depth : Int) (fuel : Nat) : Option BuildState :=
  run (fixtureLookup repository) max_depth fuel (initState start_package)

/-- Keys of the accumulated graph, in insertion order. -/
def keys (s : BuildState) : List String :=
  s.graph.map Prod.fst

/-- One iteration of the loop when the dependency source may fail
(live mode: `get_package_dependencies` raises on any error).  A failing
lookup produces `Except.error`, carrying only the error value — the
accumulated graph is not part of the result. -/
def stepE (lookupE : String → Except String (List String)) (maxDepth : Int) (s : BuildState) : Except String BuildState :=
  match s.queue with
  | [] => Except.ok s
  | (pkg, depth) :: rest =>
    if pkg ∈ s.visited then
      Except.ok { s with queue := rest }
    else
      let visited' := s.visited ++ [pkg]
      if (depth : Int) ≥ maxDepth then
        Except.ok { graph := s.graph, visited := visited', queue := rest, trace := s.trace }
      else
        match lookupE pkg with
        | Except.error e => Except.error e
        | Except.ok dependencies =>
          Except.ok { graph := s.graph ++ [(pkg, dependencies)],
                      visited := visited',
                      queue := rest ++ (dependencies.filter (fun d => !(visited'.contains d))).map (fun d => (d, depth + 1)),
                      trace := s.trace ++ [pkg] }

/-- Fuel-indexed iteration of `stepE`: `none` when fuel runs out,
`some (Except.error e)` when a lookup failed (aborting the traversal at
once), `some (Except.ok t)` for a completed traversal. -/
def runE (lookupE : String → Except String (List String)) (maxDepth : Int) : Nat → BuildState → Option (Except String BuildState)
  | 0, s => if s.queue.isEmpty then some (Except.ok s) else none
  | fuel + 1, s =>
    if s.queue.isEmpty then some (Except.ok s)
    else
      match stepE lookupE maxDepth s with
      | Except.error e => some (Except.error e)
      | Except.ok s' => runE lookupE maxDepth fuel s'

/-- Pure core of the live source `get_package_dependencies`: parsing of
one delimited dependency field (format `pkg:version|pkg:version`),
keeping the part before the colon when it is non-empty and differs from
the queried package, then removing duplicates — the Python code does
this with `list(set(dependencies))`, whose output order is unspecified,
so duplicate removal is embedded as `dedup`, which has the same
membership. -/
def parseDependencyField (package_name : String) (deps_str : String) : List String :=
  ((deps_str.splitOn "|").filterMap (fun dep =>
    if dep.contains ':' then
      let dep_package := (dep.splitOn ":").headD ""
      if dep_package ≠ "" ∧ dep_package ≠ package_name then some dep_package else none
    else none)).dedup

/-- Configuration record of `Config.__init__` / `load_from_file`. -/
structure Config where
  package_name : String
  repository_url : String
  test_mode : Bool
  output_file : String
  ascii_tree : Bool
  max_depth : Int
deriving DecidableEq

/-- `Config._validate`: reject an empty package name, an empty
repository URL, and a `max_depth` below 1, in that order. -/
def Config.validate (c : Config) : Except String Unit :=
  if c.package_name = "" then Except.error "Package name is required"
  else if c.repository_url = "" then Except.error "Repository URL is required"
  else if c.max_depth < 1 then Except.error "Max depth must be a positive integer"
  else Except.ok ()

/-- The four-package fixture of the specification scenarios. -/
def appRepo : List (String × List String) :=
  [("App", ["Lib1", "Lib2"]), ("Lib1", ["Core"]), ("Lib2", ["Core"]), ("Core", [])]

example : build_dependency_graph "App" appRepo 10 10 =
    some { graph := [("App", ["Lib1", "Lib2"]), ("Lib1", ["Core"]), ("Lib2", ["Core"]), ("Core", [])],
           visited := ["App", "Lib1", "Lib2", "Core"],
           queue := [],
           trace := ["App", "Lib1", "Lib2", "Core"] } := by
  decide

example : build_dependency_graph "A" [("A", ["A"])] 10 3 =
    some { graph := [("A", ["A"])], visited := ["A"], queue := [], trace := ["A"] } := by
  decide

theorem run_of_empty (L : String → List String) (md : Int) (f : Nat) (s : BuildState) (h : s.queue = []) :
    run L md f s = some s := by
  cases f <;> simp [run, h]

theorem run_succ_of_cons (L : String → List String) (md : Int) (f : Nat) (s : BuildState)
    (p : String) (d : Nat) (rest : List (String × Nat)) (h : s.queue = (p, d) :: rest) :
    run L md (f + 1) s = run L md f (step L md s) := by
  simp [run, h]

theorem run_zero_of_cons (L : String → List String) (md : Int) (s : BuildState)
    (p : String) (d : Nat) (rest : List (String × Nat)) (h : s.queue = (p, d) :: rest) :
    run L md 0 s = none := by
  simp [run, h]

theorem step_cons_visited (L : String → List String) (md : Int) (s : BuildState)
    (p : String) (d : Nat) (rest : List (String × Nat))
    (hq : s.queue = (p, d) :: rest) (hv : p ∈ s.visited) :
    step L md s = { s with queue := rest } := by
  obtain ⟨g, v, q, tr⟩ := s
  subst hq
  simp_all [step]

theorem step_cons_boundary (L : String → List String) (md : Int) (s : BuildState)
    (p : String) (d : Nat) (rest : List (String × Nat))
    (hq : s.queue = (p, d) :: rest) (hv : p ∉ s.visited) (hd : (d : Int) ≥ md) :
    step L md s = { graph := s.graph, visited := s.visited ++ [p], queue := rest, trace := s.trace } := by
  obtain ⟨g, v, q, tr⟩ := s
  subst hq
  simp_all [step]

theorem step_cons_expand (L : String → List String) (md : Int) (s : BuildState)
    (p : String) (d : Nat) (rest : List (String × Nat))
    (hq : s.queue = (p, d) :: rest) (hv : p ∉ s.visited) (hd : ¬ ((d : Int) ≥ md)) :
    step L md s =
      { graph := s.graph ++ [(p, L p)],
        visited := s.visited ++ [p],
        queue := rest ++ ((L p).filter (fun x => !((s.visited ++ [p]).contains x))).map (fun x => (x, d + 1)),
        trace := s.trace ++ [p] } := by
  obtain ⟨g, v, q, tr⟩ := s
  subst hq
  simp_all [step]

theorem run_invariant (L : String → List String) (md : Int) (P : BuildState → Prop)
    (hP : ∀ s, P s → P (step L md s)) :
    ∀ f s t, run L md f s = some t → P s → P t := by
  intro f
  induction f with
  | zero =>
    intro s t h hs
    by_cases he : s.queue.isEmpty <;> simp [run, he] at h
    exact h ▸ hs
  | succ f ih =>
    intro s t h hs
    by_cases he : s.queue.isEmpty
    · simp [run, he] at h
      exact h ▸ hs
    · rw [show run L md (f + 1) s = run L md f (step L md s) by simp [run, he]] at h
      exact ih (step L md s) t h (hP s hs)

theorem step_visited_mono (L : String → List String) (md : Int) (s : BuildState)
    (p : String) (hp : p ∈ s.visited) : p ∈ (step L md s).visited := by
  obtain ⟨g, v, q, tr⟩ := s
  match q with
  | [] => simpa [step] using hp
  | (pkg, d) :: rest =>
    simp only [step]
    split
    · exact hp
    · split
      · exact List.mem_append_left _ hp
      · exact List.mem_append_left _ hp

theorem step_graph_suffix (L : String → List String) (md : Int) (s : BuildState) :
    ∃ g2, (step L md s).graph = s.graph ++ g2 := by
  obtain ⟨g, v, q, tr⟩ := s
  match q with
  | [] => exact ⟨[], by simp [step]⟩
  | (pkg, d) :: rest =>
    simp only [step]
    split
    · exact ⟨[], by simp⟩
    · split
      · exact ⟨[], by simp⟩
      · exact ⟨[(pkg, L pkg)], rfl⟩

theorem step_trace_suffix (L : String → List String) (md : Int) (s : BuildState) :
    ∃ t2, (step L md s).trace = s.trace ++ t2 := by
  obtain ⟨g, v, q, tr⟩ := s
  match q with
  | [] => exact ⟨[], by simp [step]⟩
  | (pkg, d) :: rest =>
    simp only [step]
    split
    · exact ⟨[], by simp⟩
    · split
      · exact ⟨[], by simp⟩
      · exact ⟨[pkg], rfl⟩

theorem run_visited_mono (L : String → List String) (md : Int) (f : Nat) (s t : BuildState)
    (h : run L md f s = some t) (p : String) (hp : p ∈ s.visited) : p ∈ t.visited :=
  run_invariant L md (fun u => p ∈ u.visited) (fun u hu => step_visited_mono L md u p hu) f s t h hp

theorem run_graph_suffix (L : String → List String) (md : Int) (f : Nat) (s t : BuildState)
    (h : run L md f s = some t) : ∃ g2, t.graph = s.graph ++ g2 := by
  refine run_invariant L md (fun u => ∃ g2, u.graph = s.graph ++ g2) ?_ f s t h ⟨[], by simp⟩
  rintro u ⟨g2, hg2⟩
  obtain ⟨g3, hg3⟩ := step_graph_suffix L md u
  exact ⟨g2 ++ g3, by rw [hg3, hg2, List.append_assoc]⟩

/-- Loop invariant tying the three result structures together: the call
trace equals the key list of the graph (a lookup happens exactly when a
key is recorded), the keys are distinct, and every key has been
visited. -/
def Good (s : BuildState) : Prop :=
  s.trace = keys s ∧ (keys s).Nodup ∧ ∀ p ∈ keys s, p ∈ s.visited

theorem step_good (L : String → List String) (md : Int) (s : BuildState) (h : Good s) :
    Good (step L md s) := by
  obtain ⟨htr, hnd, hsub⟩ := h
  obtain ⟨g, v, q, tr⟩ := s
  match q with
  | [] => simpa [step, Good] using ⟨htr, hnd, hsub⟩
  | (pkg, d) :: rest =>
    simp only [step]
    split
    · exact ⟨htr, hnd, hsub⟩
    · split
      · refine ⟨htr, hnd, fun p hp => List.mem_append_left _ (hsub p hp)⟩
      · rename_i hv _
        simp only [Good, keys, List.map_append, List.map_cons, List.map_nil] at *
        refine ⟨by rw [htr], ?_, ?_⟩
        · rw [List.nodup_append]
          refine ⟨hnd, List.nodup_singleton pkg, ?_⟩
          intro a ha hb
          simp only [List.mem_singleton] at hb
          subst hb
          exact hv (hsub a ha)
        · intro p hp
          rcases List.mem_append.mp hp with hp | hp
          · exact List.mem_append_left _ (hsub p hp)
          · simp only [List.mem_singleton] at hp
            subst hp
            exact List.mem_append_right _ (List.mem_singleton_self p)

theorem run_good (L : String → List String) (md : Int) (f : Nat) (s t : BuildState)
    (h : run L md f s = some t) (hs : Good s) : Good t :=
  run_invariant L md Good (step_good L md) f s t h hs

theorem initState_good (root : String) : Good (initState root) := by
  refine ⟨rfl, List.nodup_nil, ?_⟩
  intro p hp
  simp [initState, keys] at hp

/-- Every recorded graph entry is exactly the lookup result for its key. -/
theorem step_entries (L : String → List String) (md : Int) (s : BuildState)
    (h : ∀ e ∈ s.graph, e.2 = L e.1) : ∀ e ∈ (step L md s).graph, e.2 = L e.1 := by
  obtain ⟨g, v, q, tr⟩ := s
  match q with
  | [] => simpa [step] using h
  | (pkg, d) :: rest =>
    simp only [step]
    split
    · exact h
    · split
      · exact h
      · intro e he
        rcases List.mem_append.mp he with he | he
        · exact h e he
        · simp only [List.mem_singleton] at he
          subst he
          rfl

theorem run_entries (L : String → List String) (md : Int) (f : Nat) (s t : BuildState)
    (h : run L md f s = some t) (hs : ∀ e ∈ s.graph, e.2 = L e.1) :
    ∀ e ∈ t.graph, e.2 = L e.1 :=
  run_invariant L md (fun u => ∀ e ∈ u.graph, e.2 = L e.1) (step_entries L md) f s t h hs

/-- A package already visited but not yet recorded as a key and never
looked up stays that way for the rest of the traversal. -/
theorem step_frozen (L : String → List String) (md : Int) (p : String) (s : BuildState)
    (h : p ∈ s.visited ∧ p ∉ keys s ∧ p ∉ s.trace) :
    p ∈ (step L md s).visited ∧ p ∉ keys (step L md s) ∧ p ∉ (step L md s).trace := by
  obtain ⟨hv, hk, ht⟩ := h
  obtain ⟨g, v, q, tr⟩ := s
  match q with
  | [] => simpa [step] using ⟨hv, hk, ht⟩
  | (pkg, d) :: rest =>
    simp only [step]
    split
    · exact ⟨hv, hk, ht⟩
    · rename_i hpkg
      split
      · exact ⟨List.mem_append_left _ hv, hk, ht⟩
      · have hne : pkg ≠ p := fun he => hpkg (he ▸ hv)
        refine ⟨List.mem_append_left _ hv, ?_, ?_⟩
        · simp only [keys, List.map_append, List.map_cons, List.map_nil, List.mem_append,
            List.mem_singleton]
          rintro (hp | hp)
          · exact hk hp
          · exact hne hp.symm
        · simp only [List.mem_append, List.mem_singleton]
          rintro (hp | hp)
          · exact ht hp
          · exact hne hp.symm

theorem run_frozen (L : String → List String) (md : Int) (f : Nat) (s t : BuildState)
    (h : run L md f s = some t) (p : String)
    (hs : p ∈ s.visited ∧ p ∉ keys s ∧ p ∉ s.trace) :
    p ∈ t.visited ∧ p ∉ keys t ∧ p ∉ t.trace :=
  run_invariant L md (fun u => p ∈ u.visited ∧ p ∉ keys u ∧ p ∉ u.trace)
    (step_frozen L md p) f s t h hs

/-- Marking one more unvisited package strictly shrinks the set of
universe packages not yet visited. -/
theorem unvisited_card_lt (u v : List String) (pkg : String) (hpu : pkg ∈ u) (hpv : pkg ∉ v) :
    (u.toFinset \ (v ++ [pkg]).toFinset).card < (u.toFinset \ v.toFinset).card := by
  apply Finset.card_lt_card
  have hsub : u.toFinset \ (v ++ [pkg]).toFinset ⊆ u.toFinset \ v.toFinset := by
    intro x hx
    simp only [Finset.mem_sdiff, List.mem_toFinset, List.mem_append, List.mem_singleton] at hx ⊢
    exact ⟨hx.1, fun hxv => hx.2 (Or.inl hxv)⟩
  rw [Finset.ssubset_iff_of_subset hsub]
  refine ⟨pkg, ?_, ?_⟩
  · simp only [Finset.mem_sdiff, List.mem_toFinset]
    exact ⟨hpu, hpv⟩
  · simp [Finset.mem_sdiff, List.mem_toFinset]

/-- Termination of the BFS loop: when every lookup result stays inside a
fixed finite universe of packages, enough fuel exists to drain the
queue, by lexicographic descent on (unvisited universe packages, queue
length). -/
theorem run_total_aux (L : String → List String) (md : Int) (u : List String)
    (hL : ∀ p q, q ∈ L p → q ∈ u) :
    ∀ n : Nat, ∀ m : Nat, ∀ s : BuildState, (∀ e ∈ s.queue, e.1 ∈ u) →
      (u.toFinset \ s.visited.toFinset).card ≤ n → s.queue.length ≤ m →
      ∃ f t, run L md f s = some t := by
  intro n
  induction n with
  | zero =>
    intro m
    induction m with
    | zero =>
      intro s hq hc hm
      exact ⟨0, s, run_of_empty L md 0 s (List.length_eq_zero.mp (Nat.le_zero.mp hm))⟩
    | succ m ihm =>
      intro s hq hc hm
      match hqe : s.queue with
      | [] => exact ⟨0, s, run_of_empty L md 0 s hqe⟩
      | (pkg, d) :: rest =>
        by_cases hv : pkg ∈ s.visited
        · have hstep := step_cons_visited L md s pkg d rest hqe hv
          obtain ⟨f, t, hf⟩ := ihm { s with queue := rest }
            (fun e he => hq e (by rw [hqe]; exact List.mem_cons_of_mem _ he))
            (by simpa using hc)
            (by have := hm; rw [hqe] at this; simpa using Nat.le_of_succ_le_succ this)
          refine ⟨f + 1, t, ?_⟩
          rw [run_succ_of_cons L md f s pkg d rest hqe, hstep]
          exact hf
        · exfalso
          have hpu : pkg ∈ u := hq (pkg, d) (by rw [hqe]; exact List.mem_cons_self _ _)
          have hmem : pkg ∈ u.toFinset \ s.visited.toFinset := by
            simp only [Finset.mem_sdiff, List.mem_toFinset]
            exact ⟨hpu, hv⟩
          have := Finset.card_pos.mpr ⟨pkg, hmem⟩
          omega
  | succ n ihn =>
    intro m
    induction m with
    | zero =>
      intro s hq hc hm
      exact ⟨0, s, run_of_empty L md 0 s (List.length_eq_zero.mp (Nat.le_zero.mp hm))⟩
    | succ m ihm =>
      intro s hq hc hm
      match hqe : s.queue with
      | [] => exact ⟨0, s, run_of_empty L md 0 s hqe⟩
      | (pkg, d) :: rest =>
        by_cases hv : pkg ∈ s.visited
        · have hstep := step_cons_visited L md s pkg d rest hqe hv
          obtain ⟨f, t, hf⟩ := ihm { s with queue := rest }
            (fun e he => hq e (by rw [hqe]; exact List.mem_cons_of_mem _ he))
            (by simpa using hc)
            (by have := hm; rw [hqe] at this; simpa using Nat.le_of_succ_le_succ this)
          refine ⟨f + 1, t, ?_⟩
          rw [run_succ_of_cons L md f s pkg d rest hqe, hstep]
          exact hf
        · have hpu : pkg ∈ u := hq (pkg, d) (by rw [hqe]; exact List.mem_cons_self _ _)
          have hlt := unvisited_card_lt u s.visited pkg hpu hv
          have hcard : (u.toFinset \ (s.visited ++ [pkg]).toFinset).card ≤ n := by omega
          by_cases hd : (d : Int) ≥ md
          · have hstep := step_cons_boundary L md s pkg d rest hqe hv hd
            obtain ⟨f, t, hf⟩ := ihn rest.length
              { graph := s.graph, visited := s.visited ++ [pkg], queue := rest, trace := s.trace }
              (fun e he => hq e (by rw [hqe]; exact List.mem_cons_of_mem _ he))
              hcard (le_refl _)
            refine ⟨f + 1, t, ?_⟩
            rw [run_succ_of_cons L md f s pkg d rest hqe, hstep]
            exact hf
          · have hstep := step_cons_expand L md s pkg d rest hqe hv hd
            set s' : BuildState :=
              { graph := s.graph ++ [(pkg, L pkg)],
                visited := s.visited ++ [pkg],
                queue := rest ++ ((L pkg).filter (fun x => !((s.visited ++ [pkg]).contains x))).map (fun x => (x, d + 1)),
                trace := s.trace ++ [pkg] } with hs'
            obtain ⟨f, t, hf⟩ := ihn s'.queue.length s'
              (by
                intro e he
                rw [hs'] at he
                simp only [List.mem_append] at he
                rcases he with he | he
                · exact hq e (by rw [hqe]; exact List.mem_cons_of_mem _ he)
                · obtain ⟨x, hx, hxe⟩ := List.mem_map.mp he
                  have hxL : x ∈ L pkg := List.mem_of_mem_filter hx
                  rw [← hxe]
                  exact hL pkg x hxL)
              hcard (le_refl _)
            refine ⟨f + 1, t, ?_⟩
            rw [run_succ_of_cons L md f s pkg d rest hqe, hstep]
            exact hf

/-- Package universe of one fixture traversal: the root together with
every package listed in any dependency list of the repository. -/
def uni (repository : List (String × List String)) (root : String) : List String :=
  root :: (repository.map Prod.snd).flatten

theorem fixtureLookup_mem_uni (repository : List (String × List String)) (root : String)
    (p q : String) (hq : q ∈ fixtureLookup repository p) : q ∈ uni repository root := by
  unfold fixtureLookup at hq
  match hf : repository.find? (fun e => e.1 == p) with
  | none => rw [hf] at hq; simp at hq
  | some e =>
    rw [hf] at hq
    have he : e ∈ repository := List.mem_of_find?_eq_some hf
    have : q ∈ (repository.map Prod.snd).flatten :=
      List.mem_flatten.mpr ⟨e.2, List.mem_map_of_mem Prod.snd he, hq⟩
    exact List.mem_cons_of_mem _ this

/-- The fixture traversal always has enough fuel to finish. -/
theorem build_dependency_graph_total (start_package : String)
    (repository : List (String × List String)) (max_depth : Int) :
    ∃ f t, build_dependency_graph start_package repository max_depth f = some t := by
  unfold build_dependency_graph
  apply run_total_aux (fixtureLookup repository) max_depth (uni repository start_package)
    (fixtureLookup_mem_uni repository start_package)
    (uni repository start_package).toFinset.card 1
  · intro e he
    simp only [initState] at he
    simp only [List.mem_singleton] at he
    rw [he]
    exact List.mem_cons_self _ _
  · simp [initState]
  · simp [initState]

/-- C1: for root "App" and the four-package fixture with max depth 10,
the traversal returns exactly the fixture graph, and "Core" is passed to
the dependency lookup exactly once even though both "Lib1" and "Lib2"
depend on it; in general, in any completed traversal every package — in
particular one listed as a dependency by two different packages — is
passed to the lookup at most once. -/
theorem C1_scenario_and_lookup_at_most_once :
    ((build_dependency_graph "App" appRepo 10 10).map BuildState.graph =
        some [("App", ["Lib1", "Lib2"]), ("Lib1", ["Core"]), ("Lib2", ["Core"]), ("Core", [])] ∧
      (build_dependency_graph "App" appRepo 10 10).map (fun t => t.trace.count "Core") = some 1) ∧
    ∀ (L : String → List String) (md : Int) (root : String) (f : Nat) (t : BuildState),
      run L md f (initState root) = some t → ∀ C : String, t.trace.count C ≤ 1 := by
  refine ⟨⟨by decide, by decide⟩, ?_⟩
  intro L md root f t h C
  have hg := run_good L md f (initState root) t h (initState_good root)
  have hnd : t.trace.Nodup := by rw [hg.1]; exact hg.2.1
  exact List.nodup_iff_count_le_one.mp hnd C

theorem C1_witness :
    ({ graph := [("App", ["Lib1", "Lib2"]), ("Lib1", ["Core"]), ("Lib2", ["Core"]), ("Core", [])],
       visited := ["App", "Lib1", "Lib2", "Core"], queue := [],
       trace := ["App", "Lib1", "Lib2", "Core"] } : BuildState).trace.count "Core" ≤ 1 :=
  C1_scenario_and_lookup_at_most_once.2 (fixtureLookup appRepo) 10 "App" 10
    { graph := [("App", ["Lib1", "Lib2"]), ("Lib1", ["Core"]), ("Lib2", ["Core"]), ("Core", [])],
      visited := ["App", "Lib1", "Lib2", "Core"], queue := [],
      trace := ["App", "Lib1", "Lib2", "Core"] } (by decide) "Core"

/-- C2: for every fixture repository, root and max depth, the traversal
terminates (some finite fuel drains the queue) with a graph whose key
list has no duplicate — no package is expanded twice; every completed
traversal has duplicate-free keys; concretely the cyclic fixture
A→B, B→A terminates with keys ["A", "B"]. -/
theorem C2_terminates_and_keys_nodup :
    (∀ (repository : List (String × List String)) (root : String) (md : Int),
      ∃ f t, build_dependency_graph root repository md f = some t ∧ (keys t).Nodup) ∧
    (∀ (repository : List (String × List String)) (root : String) (md : Int) (f : Nat)
        (t : BuildState),
      build_dependency_graph root repository md f = some t → (keys t).Nodup) ∧
    (build_dependency_graph "A" [("A", ["B"]), ("B", ["A"])] 10 5 =
      some { graph := [("A", ["B"]), ("B", ["A"])], visited := ["A", "B"], queue := [],
             trace := ["A", "B"] }) := by
  refine ⟨?_, ?_, by decide⟩
  · intro repository root md
    obtain ⟨f, t, hf⟩ := build_dependency_graph_total root repository md
    refine ⟨f, t, hf, ?_⟩
    unfold build_dependency_graph at hf
    exact (run_good _ md f _ t hf (initState_good root)).2.1
  · intro repository root md f t hf
    unfold build_dependency_graph at hf
    exact (run_good _ md f _ t hf (initState_good root)).2.1

theorem C2_witness :
    (keys { graph := [("A", ["B"]), ("B", ["A"])], visited := ["A", "B"], queue := [],
            trace := ["A", "B"] }).Nodup :=
  C2_terminates_and_keys_nodup.2.1 [("A", ["B"]), ("B", ["A"])] "A" 10 5
    { graph := [("A", ["B"]), ("B", ["A"])], visited := ["A", "B"], queue := [],
      trace := ["A", "B"] } (by decide)

/-- C3 counterexample: in test mode the dependency source does not strip
self-references — on the fixture mapping A → ["A"] with root "A" the
returned graph records "A" ↦ ["A"], which differs from the claimed
"A" ↦ []. -/
theorem C3_counterexample :
    (build_dependency_graph "A" [("A", ["A"])] 10 3).map BuildState.graph = some [("A", ["A"])] ∧
    (some [("A", ["A"])] ≠ some [("A", ([] : List String))]) := by
  exact ⟨by decide, by decide⟩

/-- C3 amended: for the self-referential fixture A → ["A"] with root
"A", build returns the graph "A" ↦ ["A"]: the fixture source returns the
mapping value unchanged (no self-filtering), and the self-edge is merely
not re-expanded; only the live source's dependency-field parser strips a
dependency equal to the queried package. -/
theorem C3_amended :
    (build_dependency_graph "A" [("A", ["A"])] 10 3 =
      some { graph := [("A", ["A"])], visited := ["A"], queue := [], trace := ["A"] }) ∧
    ∀ (package_name deps_str : String),
      package_name ∉ parseDependencyField package_name deps_str := by
  refine ⟨by decide, ?_⟩
  intro pn ds hmem
  unfold parseDependencyField at hmem
  obtain ⟨dep, _, hf⟩ := List.mem_filterMap.mp (List.mem_dedup.mp hmem)
  by_cases hc : dep.contains ':'
  · simp only [hc, if_true] at hf
    by_cases h2 : (dep.splitOn ":").headD "" ≠ "" ∧ (dep.splitOn ":").headD "" ≠ pn
    · rw [if_pos h2] at hf
      exact h2.2 (Option.some.inj hf)
    · rw [if_neg h2] at hf
      exact Option.noConfusion hf
  · simp only [hc, if_false] at hf
    exact Option.noConfusion hf

/-- C4: a package dequeued while unvisited at depth ≥ maxDepth is only
marked visited — the step leaves graph and trace untouched and enqueues
nothing — and for the remainder of the traversal that package never
becomes a key of the graph and is never passed to the lookup; with
maxDepth = 1 and root "R" whose only dependency is "D", the result graph
is exactly R ↦ ["D"] and "D" is visited but not a key. -/
theorem C4_depth_boundary :
    (∀ (L : String → List String) (md : Int) (s : BuildState) (pkg : String) (d : Nat)
        (rest : List (String × Nat)) (f : Nat) (t : BuildState),
      s.queue = (pkg, d) :: rest → pkg ∉ s.visited → (d : Int) ≥ md →
      pkg ∉ keys s → pkg ∉ s.trace → run L md f s = some t →
      step L md s = { graph := s.graph, visited := s.visited ++ [pkg], queue := rest,
                      trace := s.trace } ∧
        pkg ∈ t.visited ∧ pkg ∉ keys t ∧ pkg ∉ t.trace) ∧
    (∃ t, build_dependency_graph "R" [("R", ["D"]), ("D", ["E"])] 1 4 = some t ∧
      t.graph = [("R", ["D"])] ∧ "D" ∈ t.visited ∧ "D" ∉ keys t) := by
  constructor
  · intro L md s pkg d rest f t hq hv hd hk ht hrun
    have hstep := step_cons_boundary L md s pkg d rest hq hv hd
    refine ⟨hstep, ?_⟩
    match f with
    | 0 =>
      rw [run_zero_of_cons L md s pkg d rest hq] at hrun
      exact Option.noConfusion hrun
    | f + 1 =>
      rw [run_succ_of_cons L md f s pkg d rest hq, hstep] at hrun
      refine run_frozen L md f _ t hrun pkg ⟨?_, ?_, ?_⟩
      · exact List.mem_append_right _ (List.mem_singleton_self pkg)
      · exact hk
      · exact ht
  · exact ⟨{ graph := [("R", ["D"])], visited := ["R", "D"], queue := [], trace := ["R"] },
      by decide, by decide, by decide, by decide⟩

theorem C4_witness :
    step (fixtureLookup []) 1 { graph := [], visited := [], queue := [("X", 2)], trace := [] } =
      { graph := [], visited := ["X"], queue := [], trace := [] } ∧
    "X" ∈ ({ graph := [], visited := ["X"], queue := [], trace := [] } : BuildState).visited ∧
    "X" ∉ keys { graph := [], visited := ["X"], queue := [], trace := [] } ∧
    "X" ∉ ({ graph := [], visited := ["X"], queue := [], trace := [] } : BuildState).trace :=
  C4_depth_boundary.1 (fixtureLookup []) 1
    { graph := [], visited := [], queue := [("X", 2)], trace := [] } "X" 2 [] 1
    { graph := [], visited := ["X"], queue := [], trace := [] }
    rfl (by decide) (by decide) (by decide) (by decide) (by decide)

/-- C5: in a completed traversal, every entry of the returned graph
holds exactly the lookup result for its key — so a package whose lookup
returned the empty list is present as pkg ↦ [] — and every key was
looked up, so a package never passed to the lookup is absent as a key;
concretely, building the fixture A → ["B"], B → [] at depth 10 yields
"B" ↦ some [] while the depth-1 build yields none for "B" — the two
cases are distinguishable. -/
theorem C5_empty_list_vs_absent :
    (∀ (L : String → List String) (md : Int) (root : String) (f : Nat) (t : BuildState),
      run L md f (initState root) = some t →
      (∀ e ∈ t.graph, e.2 = L e.1) ∧ ∀ p ∈ keys t, p ∈ t.trace) ∧
    ((build_dependency_graph "A" [("A", ["B"]), ("B", [])] 10 5).map
        (fun t => (t.graph.find? (fun e => e.1 == "B")).map Prod.snd) = some (some []) ∧
      (build_dependency_graph "A" [("A", ["B"]), ("B", [])] 1 5).map
        (fun t => (t.graph.find? (fun e => e.1 == "B")).map Prod.snd) = some none) := by
  refine ⟨?_, by decide, by decide⟩
  intro L md root f t h
  refine ⟨run_entries L md f _ t h (by simp [initState]), ?_⟩
  intro p hp
  have hg := run_good L md f (initState root) t h (initState_good root)
  rw [hg.1]
  exact hp

theorem C5_witness :
    (("A", ["B"]) : String × List String).2 = fixtureLookup [("A", ["B"]), ("B", [])] "A" :=
  (C5_empty_list_vs_absent.1 (fixtureLookup [("A", ["B"]), ("B", [])]) 10 "A" 5
    { graph := [("A", ["B"]), ("B", [])], visited := ["A", "B"], queue := [],
      trace := ["A", "B"] } (by decide)).1 ("A", ["B"]) (by decide)

/-- C6: in fixture mode, looking up a package that is absent from the
fixture mapping yields the empty list rather than an error. -/
theorem C6_fixture_miss_tolerance (repository : List (String × List String)) (pkg : String)
    (h : pkg ∉ repository.map Prod.fst) : fixtureLookup repository pkg = [] := by
  unfold fixtureLookup
  match hf : repository.find? (fun e => e.1 == pkg) with
  | none => rw [hf]
  | some e =>
    exfalso
    have he : e ∈ repository := List.mem_of_find?_eq_some hf
    have hbeq : (e.1 == pkg) = true := by simpa using List.find?_some hf
    have heq : e.1 = pkg := eq_of_beq hbeq
    exact h (heq ▸ List.mem_map_of_mem Prod.fst he)

theorem C6_witness : fixtureLookup [("App", ["Lib1"])] "Ghost" = [] :=
  C6_fixture_miss_tolerance [("App", ["Lib1"])] "Ghost" (by decide)

/-- C7: a failing lookup aborts the traversal at once — the iteration
that performs the failing lookup returns exactly the bare error, with
the accumulated graph discarded (the error result carries no graph),
and the loop propagates that error unchanged as its overall outcome,
with no retry and no skip-and-continue. -/
theorem C7_failure_propagation :
    (∀ (LE : String → Except String (List String)) (md : Int) (s : BuildState)
        (pkg : String) (d : Nat) (rest : List (String × Nat)) (e : String),
      s.queue = (pkg, d) :: rest → pkg ∉ s.visited → ¬ ((d : Int) ≥ md) →
      LE pkg = Except.error e → stepE LE md s = Except.error e) ∧
    (∀ (LE : String → Except String (List String)) (md : Int) (s : BuildState) (f : Nat)
        (e : String),
      stepE LE md s = Except.error e → runE LE md (f + 1) s = some (Except.error e)) := by
  constructor
  · intro LE md s pkg d rest e hq hv hd hLE
    obtain ⟨g, v, q, tr⟩ := s
    subst hq
    simp_all [stepE]
  · intro LE md s f e hstepE
    have hne : s.queue.isEmpty = false := by
      match hq : s.queue with
      | [] =>
        exfalso
        obtain ⟨g, v, q, tr⟩ := s
        subst hq
        simp [stepE] at hstepE
      | _ :: _ => rfl
    simp only [runE, hne, Bool.false_eq_true, if_false, hstepE]

theorem C7_witness :
    stepE (fun _ => Except.error "boom") 10 (initState "A") = Except.error "boom" ∧
    runE (fun _ => Except.error "boom") 10 1 (initState "A") = some (Except.error "boom") :=
  ⟨C7_failure_propagation.1 (fun _ => Except.error "boom") 10 (initState "A") "A" 0 [] "boom"
      rfl (by decide) (by decide) rfl,
    C7_failure_propagation.2 (fun _ => Except.error "boom") 10 (initState "A") 0 "boom"
      (C7_failure_propagation.1 (fun _ => Except.error "boom") 10 (initState "A") "A" 0 [] "boom"
        rfl (by decide) (by decide) rfl)⟩

/-- C8: configuration validation rejects an empty package name, an
empty repository URL, and a max depth below 1 (so in particular
max_depth = 0 or negative), each with a configuration error; validation
runs during config loading, before any traversal. -/
theorem C8_config_validation (c : Config)
    (h : c.package_name = "" ∨ c.repository_url = "" ∨ c.max_depth < 1) :
    ∃ msg, c.validate = Except.error msg := by
  unfold Config.validate
  by_cases h1 : c.package_name = ""
  · exact ⟨"Package name is required", by simp [h1]⟩
  · by_cases h2 : c.repository_url = ""
    · exact ⟨"Repository URL is required", by simp [h1, h2]⟩
    · have h3 : c.max_depth < 1 := by tauto
      exact ⟨"Max depth must be a positive integer", by simp [h1, h2, h3]⟩

theorem C8_witness :
    ∃ msg, Config.validate
      { package_name := "pkg", repository_url := "https://feed", test_mode := false,
        output_file := "graph.png", ascii_tree := false, max_depth := 0 } =
      Except.error msg :=
  C8_config_validation
    { package_name := "pkg", repository_url := "https://feed", test_mode := false,
      output_file := "graph.png", ascii_tree := false, max_depth := 0 }
    (Or.inr (Or.inr (by decide)))

/-- C9: with max_depth ≤ 0 (outside the documented precondition) the
build does not fail: the root is dequeued and marked visited but, being
already at the depth bound, is never expanded — no lookup happens and
the returned graph is empty. -/
theorem C9_nonpositive_depth (L : String → List String) (md : Int) (root : String) (f : Nat)
    (h : md ≤ 0) :
    run L md (f + 1) (initState root) =
      some { graph := [], visited := [root], queue := [], trace := [] } := by
  have hstep : step L md (initState root) =
      { graph := [], visited := [root], queue := [], trace := [] } := by
    have hb := step_cons_boundary L md (initState root) root 0 [] rfl
      (by simp [initState]) (by omega)
    simpa [initState] using hb
  rw [run_succ_of_cons L md f (initState root) root 0 [] rfl, hstep,
    run_of_empty L md f _ rfl]

theorem C9_witness :
    run (fixtureLookup [("A", ["B"])]) 0 1 (initState "A") =
      some { graph := [], visited := ["A"], queue := [], trace := [] } :=
  C9_nonpositive_depth (fixtureLookup [("A", ["B"])]) 0 "A" 0 (by decide)

/-- C10: the fixture-mode build is a pure function of root, repository,
max depth and fuel — two runs on the same inputs return the same
insertion-ordered result — and whenever maxDepth ≥ 1 and the traversal
completes, the first recorded key is the root together with its lookup
result, in first-dequeue BFS order. -/
theorem C10_deterministic_root_first_key :
    (∀ (root : String) (repository : List (String × List String)) (md : Int) (f : Nat),
      build_dependency_graph root repository md f = build_dependency_graph root repository md f) ∧
    (∀ (L : String → List String) (md : Int) (root : String) (f : Nat) (t : BuildState),
      1 ≤ md → run L md f (initState root) = some t →
      t.graph.head? = some (root, L root)) := by
  refine ⟨fun _ _ _ _ => rfl, ?_⟩
  intro L md root f t hmd h
  match f with
  | 0 =>
    rw [run_zero_of_cons L md (initState root) root 0 [] rfl] at h
    exact Option.noConfusion h
  | f + 1 =>
    rw [run_succ_of_cons L md f (initState root) root 0 [] rfl] at h
    have hstep := step_cons_expand L md (initState root) root 0 [] rfl
      (by simp [initState]) (by omega)
    rw [hstep] at h
    obtain ⟨g2, hg2⟩ := run_graph_suffix L md f _ t h
    simp only [initState, List.nil_append] at hg2
    rw [hg2]
    rfl

theorem C10_witness :
    ({ graph := [("X", ["Y"])], visited := ["X", "Y"], queue := [],
       trace := ["X"] } : BuildState).graph.head? =
      some ("X", fixtureLookup [("X", ["Y"])] "X") :=
  C10_deterministic_root_first_key.2 (fixtureLookup [("X", ["Y"])]) 1 "X" 3
    { graph := [("X", ["Y"])], visited := ["X", "Y"], queue := [], trace := ["X"] }
    (by decide) (by decide)
